import Mathlib

/-!
Verification of `git_rm_user.py` (git-rm-tool): a shallow embedding of the
credential store, the access scanner, the access revoker and the `search`
command, with theorems checking the specification's claims against it.

Modelling conventions:
* The OS keyring (service "git-rm-tool") is a map from key to stored string.
  `keyring.set_password service key value` becomes `Keyring.set`;
  `keyring.get_password service key` becomes function application.
* Python strings are Lean `String`s; `",".join(...)` and `.split(",")` are
  translated through `List Char` (`String.data`) so that the byte-level
  behaviour of joining and splitting on a comma is explicit.
* Python truthiness of strings (`if not s`) is modelled as comparison
  with the empty string.
-/

namespace GitRmUser

/-- The keyring namespace "git-rm-tool": key → stored value. -/
def Keyring : Type := String → Option String

/-- `keyring.set_password("git-rm-tool", key, value)`. -/
def Keyring.set (kr : Keyring) (key value : String) : Keyring :=
  fun k => if k = key then some value else kr k

/-- The empty keyring (nothing stored). -/
def Keyring.empty : Keyring := fun _ => none

/-- `DEFAULT_TOKEN_KEY = "git-rm-tool-default"` (git_rm_user.py line 26). -/
def DEFAULT_TOKEN_KEY : String := "git-rm-tool-default"

/-- Python `",".join(tokens)` (git_rm_user.py line 71). -/
def joinComma (tokens : List String) : String :=
  ⟨List.intercalate [','] (tokens.map String.data)⟩

/-- Python `tokens_str.split(",")` (git_rm_user.py line 62). -/
def splitComma (s : String) : List String :=
  (s.data.splitOn ',').map fun l => ⟨l⟩

/-- `get_tokens()` (lines 58–64): read the "token_list" entry and split on
commas; the empty or missing entry yields `[]`.  The Python `try/except`
around `get_password` returns `[]` on failure; the keyring model is a total
map, so only the `or ""` default is visible here. -/
def get_tokens (kr : Keyring) : List String :=
  let tokens_str := (kr "token_list").getD ""
  if tokens_str = "" then [] else splitComma tokens_str

/-- `add_token_to_list(token_name)` (lines 66–71): append the name to the
tracked list when absent and write the comma-joined list back. -/
def add_token_to_list (kr : Keyring) (token_name : String) : Keyring :=
  let tokens := get_tokens kr
  if token_name ∈ tokens then kr
  else kr.set "token_list" (joinComma (tokens ++ [token_name]))

/-- `store_token(token_name, token, make_default)` (lines 45–56): write the
secret under the name, track the name, optionally set it as default.  The
surrounding `try/except` only swallows keyring failures, which the total-map
model does not produce. -/
def store_token (kr : Keyring) (token_name token : String)
    (make_default : Bool) : Keyring :=
  let kr := kr.set token_name token
  let kr := add_token_to_list kr token_name
  if make_default then kr.set DEFAULT_TOKEN_KEY token_name else kr

/-- `get_token(token_name)` (lines 73–75). -/
def get_token (kr : Keyring) (token_name : String) : Option String :=
  kr token_name

/-- `set_default_token(token_name)` (lines 77–79). -/
def set_default_token (kr : Keyring) (token_name : String) : Keyring :=
  kr.set DEFAULT_TOKEN_KEY token_name

/-- `get_default_token_name()` (lines 81–83). -/
def get_default_token_name (kr : Keyring) : Option String :=
  kr DEFAULT_TOKEN_KEY

/-! ### Basic keyring lemmas -/

theorem Keyring.set_same (kr : Keyring) (key value : String) :
    kr.set key value key = some value := by
  simp [Keyring.set]

theorem Keyring.set_other (kr : Keyring) (key value k : String)
    (h : k ≠ key) : kr.set key value k = kr k := by
  simp [Keyring.set, h]

/-- Writing any key other than "token_list" leaves `get_tokens` unchanged. -/
theorem get_tokens_set_other (kr : Keyring) (key value : String)
    (h : key ≠ "token_list") :
    get_tokens (kr.set key value) = get_tokens kr := by
  unfold get_tokens
  rw [Keyring.set_other kr key value "token_list" (fun hc => h hc.symm)]

/-- Every piece produced by `splitOnP p` contains no element satisfying `p`. -/
theorem splitOnP_pieces {α : Type} (p : α → Bool) :
    ∀ (xs : List α), ∀ l ∈ xs.splitOnP p, ∀ a ∈ l, p a = false := by
  intro xs
  induction xs with
  | nil =>
      intro l hl a ha
      rw [List.splitOnP_nil] at hl
      simp only [List.mem_singleton] at hl
      subst hl
      cases ha
  | cons x xs ih =>
      intro l hl a ha
      rw [List.splitOnP_cons] at hl
      by_cases hx : p x = true
      · rw [if_pos hx] at hl
        rcases List.mem_cons.mp hl with h | h
        · subst h; cases ha
        · exact ih l h a ha
      · rw [if_neg hx] at hl
        cases h' : xs.splitOnP p with
        | nil => exact absurd h' (List.splitOnP_ne_nil p xs)
        | cons hd tl =>
            rw [h'] at hl
            simp only [List.modifyHead] at hl
            rcases List.mem_cons.mp hl with h | h
            · subst h
              rcases List.mem_cons.mp ha with h | h
              · subst h; exact Bool.eq_false_iff.mpr hx
              · exact ih hd (h' ▸ List.mem_cons_self hd tl) a h
            · exact ih l (h' ▸ List.mem_cons_of_mem hd h) a ha

/-- Every token name returned by `get_tokens` is comma-free: the names come
from splitting the stored string on commas. -/
theorem get_tokens_comma_free (kr : Keyring) :
    ∀ t ∈ get_tokens kr, ',' ∉ t.data := by
  intro t ht
  unfold get_tokens at ht
  by_cases h : (kr "token_list").getD "" = ""
  · rw [if_pos h] at ht; cases ht
  · rw [if_neg h] at ht
    unfold splitComma at ht
    rcases List.mem_map.mp ht with ⟨l, hl, hmk⟩
    intro hc
    have : t.data = l := by rw [← hmk]
    rw [this] at hc
    have := splitOnP_pieces (fun c => c == ',') _ l hl ',' hc
    simp at this

/-- A name containing a comma is never an element of `get_tokens`. -/
theorem comma_name_not_tracked (kr : Keyring) (T : String)
    (h : ',' ∈ T.data) : T ∉ get_tokens kr :=
  fun hmem => get_tokens_comma_free kr T hmem h

/-- `joinComma` of a list ending in a nonempty name is a nonempty string. -/
theorem joinComma_append_ne_empty (l : List String) (T : String)
    (hT : T ≠ "") : joinComma (l ++ [T]) ≠ "" := by
  cases l with
  | nil =>
      simp only [List.nil_append, joinComma, List.map, List.intercalate]
      intro h
      apply hT
      have : T.data = [] := by
        have := congrArg String.data h
        simpa [List.intercalate] using this
      cases T
      simp_all
  | cons x xs =>
      intro h
      have hd : List.intercalate [','] (x.data :: (xs.map String.data ++ [T.data])) = [] := by
        have := congrArg String.data h
        simpa [joinComma] using this
      cases xs with
      | nil => simp [List.intercalate] at hd
      | cons y ys => simp [List.intercalate] at hd

/-- Splitting the comma-join of a nonempty list of comma-free names recovers
the list: the round-trip of the "token_list" encoding. -/
theorem splitComma_joinComma (l : List String)
    (hfree : ∀ t ∈ l, ',' ∉ t.data) (hne : l ≠ []) :
    splitComma (joinComma l) = l := by
  unfold splitComma joinComma
  have hx : ∀ d ∈ l.map String.data, ',' ∉ d := by
    intro d hd
    rcases List.mem_map.mp hd with ⟨t, ht, rfl⟩
    exact hfree t ht
  have hls : l.map String.data ≠ [] := by
    simpa using hne
  have hsplit := List.splitOn_intercalate (l.map String.data) ',' hx hls
  simp only [hsplit]
  rw [List.map_map]
  have hcomp : ((fun l : List Char => (⟨l⟩ : String)) ∘ String.data) = id :=
    funext fun s => rfl
  rw [hcomp, List.map_id]

/-- After `add_token_to_list`, a nonempty comma-free name that was tracked at
most once is tracked exactly once. -/
theorem count_after_add_token (kr : Keyring) (T : String)
    (hfree : ',' ∉ T.data) (hne : T ≠ "")
    (hcount : (get_tokens kr).count T ≤ 1) :
    (get_tokens (add_token_to_list kr T)).count T = 1 := by
  unfold add_token_to_list
  by_cases hmem : T ∈ get_tokens kr
  · rw [if_pos hmem]
    have hpos : 0 < (get_tokens kr).count T := List.count_pos_iff.mpr hmem
    omega
  · rw [if_neg hmem]
    have hjoin : joinComma (get_tokens kr ++ [T]) ≠ "" :=
      joinComma_append_ne_empty _ T hne
    have hset : ∀ v : String, v ≠ "" →
        get_tokens (kr.set "token_list" v) = splitComma v := by
      intro v hv
      unfold get_tokens
      rw [Keyring.set_same]
      simp only [Option.getD_some]
      rw [if_neg hv]
    have hnew : get_tokens
        (kr.set "token_list" (joinComma (get_tokens kr ++ [T])))
        = get_tokens kr ++ [T] := by
      rw [hset _ hjoin]
      refine splitComma_joinComma _ ?_ (by simp)
      intro t ht
      rcases List.mem_append.mp ht with h | h
      · exact get_tokens_comma_free kr t h
      · have : t = T := List.mem_singleton.mp h
        subst this
        exact hfree
    rw [hnew, List.count_append, List.count_eq_zero.mpr hmem]
    simp

/-- C6 (amended).  `get(T)` after `store(T, S, mk)` returns exactly `S`, for
every token name `T` other than the reserved tracking key `"token_list"`,
provided `T` is not the reserved default-pointer key when `mk` is set.
(The unamended claim fails for the reserved keys, which `store` overwrites:
see the counterexample.) -/
theorem C6_get_after_store (kr : Keyring) (T S : String) (mk : Bool)
    (h1 : T ≠ "token_list") (h2 : mk = true → T ≠ DEFAULT_TOKEN_KEY) :
    get_token (store_token kr T S mk) T = some S := by
  unfold store_token get_token
  have base : ∀ kr' : Keyring, add_token_to_list kr' T T = kr' T := by
    intro kr'
    unfold add_token_to_list
    by_cases hmem : T ∈ get_tokens kr'
    · rw [if_pos hmem]
    · rw [if_neg hmem]
      exact Keyring.set_other kr' "token_list" _ T h1
  cases mk with
  | false =>
      simp only [Bool.false_eq_true, if_false]
      rw [base, Keyring.set_same]
  | true =>
      simp only [if_true]
      rw [Keyring.set_other _ DEFAULT_TOKEN_KEY T T (h2 rfl), base,
        Keyring.set_same]

/-- C6 witness: a concrete store/get round-trip. -/
theorem C6_witness :
    get_token (store_token Keyring.empty "work" "s3cret" true) "work"
      = some "s3cret" :=
  C6_get_after_store Keyring.empty "work" "s3cret" true (by decide)
    (fun _ => by decide)

/-- C6 counterexample: storing a secret under the reserved name
`"token_list"` does not round-trip — the tracking list is written over it. -/
theorem C6_counterexample :
    get_token (store_token Keyring.empty "token_list" "abc" false) "token_list"
        = some "abc,token_list"
      ∧ get_token (store_token Keyring.empty "token_list" "abc" false)
          "token_list" ≠ some "abc" := by
  constructor
  · decide
  · decide

/-- C7.  `getDefaultName()` after any nonempty sequence of `setDefault`
calls returns the argument of the most recent call (last write wins); with
the sequence `l ++ [T]` the result is `T`. -/
theorem C7_last_default_wins (kr : Keyring) (l : List String) (T : String) :
    get_default_token_name (List.foldl set_default_token kr (l ++ [T]))
      = some T := by
  rw [List.foldl_append]
  simp only [List.foldl]
  unfold get_default_token_name set_default_token
  exact Keyring.set_same _ DEFAULT_TOKEN_KEY T

/-- C9 (amended).  The tracked token-name list is persisted comma-joined and
read back comma-split.  Consequently (i) for every nonempty comma-free name
`T` other than the reserved key `"token_list"`, if `T` is tracked at most
once beforehand then after `store(T, S)` it is tracked exactly once, and
(ii) a name containing a comma is never an element of the tracked list. -/
theorem C9_comma_roundtrip :
    (∀ (kr : Keyring) (T S : String) (mk : Bool),
        ',' ∉ T.data → T ≠ "" → T ≠ "token_list" →
        (get_tokens kr).count T ≤ 1 →
        (get_tokens (store_token kr T S mk)).count T = 1)
    ∧ (∀ (kr : Keyring) (T : String), ',' ∈ T.data → T ∉ get_tokens kr) := by
  constructor
  · intro kr T S mk hfree hne hnl hcount
    unfold store_token
    have h1 : get_tokens (Keyring.set kr T S) = get_tokens kr :=
      get_tokens_set_other kr T S hnl
    cases mk with
    | false =>
        simp only [Bool.false_eq_true, if_false]
        exact count_after_add_token _ T hfree hne (h1 ▸ hcount)
    | true =>
        simp only [if_true]
        rw [get_tokens_set_other _ DEFAULT_TOKEN_KEY T (by decide)]
        exact count_after_add_token _ T hfree hne (h1 ▸ hcount)
  · exact comma_name_not_tracked

/-- C9 witness: a concrete comma-free store round-trips; a concrete
comma-containing name is never tracked. -/
theorem C9_witness :
    (get_tokens (store_token Keyring.empty "work" "s" false)).count "work" = 1
      ∧ "a,b" ∉ get_tokens Keyring.empty :=
  ⟨C9_comma_roundtrip.1 Keyring.empty "work" "s" false (by decide) (by decide)
      (by decide) (by decide),
    C9_comma_roundtrip.2 Keyring.empty "a,b" (by decide)⟩

/-- C9 counterexample: the empty name is comma-free, yet after storing it the
tracked list records it zero times, not exactly once ("" joins to the empty
string, which reads back as the empty list). -/
theorem C9_counterexample :
    ',' ∉ String.data ""
      ∧ (get_tokens (store_token Keyring.empty "" "s" false)).count "" ≠ 1
      ∧ (get_tokens (store_token Keyring.empty "" "s" false)).count "" = 0 := by
  refine ⟨by decide, by decide, by decide⟩

/-! ### The GitHub scan model

API calls made by the scanner are modelled as `Except Unit`-valued data: an
`Except.error` is a call that raises in Python.  The Python sets used for id
comparison are modelled as lists (only membership is used). -/

instance {ε α : Type} [DecidableEq ε] [DecidableEq α] :
    DecidableEq (Except ε α) := fun a b =>
  match a, b with
  | .ok x, .ok y =>
      if h : x = y then .isTrue (by rw [h])
      else .isFalse (fun hc => by cases hc; exact h rfl)
  | .error x, .error y =>
      if h : x = y then .isTrue (by rw [h])
      else .isFalse (fun hc => by cases hc; exact h rfl)
  | .ok _, .error _ => .isFalse (fun hc => by cases hc)
  | .error _, .ok _ => .isFalse (fun hc => by cases hc)

/-- A GitHub user as the scan sees one: login and numeric id. -/
structure GHUser where
  login : String
  id : Nat
deriving DecidableEq

/-- A team attached to a repository.  `orgMembers` is the membership of
`team.organization`, against which `get_member(username)` lookups resolve;
`members` is the team's own membership, queried by `has_in_members`. -/
structure GHTeam where
  name : String
  orgMembers : List GHUser
  members : List GHUser
deriving DecidableEq

/-- `team.organization.get_member(username)`: the member with that login, or
an exception (`Except.error`) when the login is not an organization member. -/
def GHTeam.organization_get_member (t : GHTeam) (username : String) :
    Except Unit GHUser :=
  match t.orgMembers.find? (fun u => u.login == username) with
  | some u => .ok u
  | none => .error ()

/-- `team.has_in_members(user)`. -/
def GHTeam.has_in_members (t : GHTeam) (u : GHUser) : Bool :=
  t.members.any (fun m => m.login == u.login)

/-- A repository: name plus the two scan-relevant API fetches, either of
which can fail. -/
structure GHRepo where
  name : String
  collaborators : Except Unit (List GHUser)
  teams : Except Unit (List GHTeam)
deriving DecidableEq

/-- The `for team in teams` loop of `check_repo_access` (git_rm_user.py
lines 120–127): the first team whose membership check succeeds wins; a team
whose `organization.get_member` lookup raises is skipped (the inner
`except` swallows it, printing a warning only under `--debug`). -/
def check_repo_teams : List GHTeam → String → Option String
  | [], _ => none
  | t :: ts, username =>
      match t.organization_get_member username with
      | .ok u =>
          if t.has_in_members u then some ("team member (" ++ t.name ++ ")")
          else check_repo_teams ts username
      | .error _ => check_repo_teams ts username

/-- The code's per-team membership test: resolve the login through the
team's organization, then ask the team; a failed lookup counts as no match. -/
def team_matches (t : GHTeam) (username : String) : Bool :=
  match t.organization_get_member username with
  | .ok u => t.has_in_members u
  | .error _ => false

/-- `check_repo_access(repo, username, user_id, debug)` (lines 111–133):
collaborators first (by id), then the team loop; a failing fetch is caught
by the outer `except` and reported as no access (`none`).  The `debug` flag
only selects warning output and is omitted from the pure model. -/
def check_repo_access (repo : GHRepo) (username : String) (user_id : Nat) :
    Option String :=
  match repo.collaborators with
  | .error _ => none
  | .ok collaborators =>
      if collaborators.any (fun c => c.id == user_id) then
        some "repository collaborator"
      else
        match repo.teams with
        | .error _ => none
        | .ok teams => check_repo_teams teams username

/-- An organization of the authenticated user: login plus the member-list
fetch (`g.get_organization(...).get_members()`) and the repository-list
fetch (`org.get_repos()`). -/
structure GHOrg where
  login : String
  members : Except Unit (List GHUser)
  repos : Except Unit (List GHRepo)
deriving DecidableEq

/-- `get_cached_member_ids(org_name, g)` (lines 102–109): the ids of the
organization's members, the empty set when the fetch raises.  The
`lru_cache` memoizes a deterministic computation and has no semantic
content. -/
def get_cached_member_ids (org : GHOrg) : List Nat :=
  match org.members with
  | .ok ms => ms.map (fun m => m.id)
  | .error _ => []

/-- `UserLocation` (lines 39–43), with the dataclass defaults. -/
structure UserLocation where
  org_name : String
  repo_name : Option String := none
  access_type : String := "organization member"
deriving DecidableEq

/-- `check_org_access(org, username, user_id, g, debug, repo_progress)`
(lines 135–179): append the membership entry if the target's id is among
the cached member ids, then check every repository.  A raising
`org.get_repos()` is caught by the surrounding `except`, so the results
accumulated up to that point are returned.  The worker pool only affects
completion order; the model lists repository results in submission order
(the spec forbids relying on the order).  Progress-bar calls are
observational and omitted. -/
def check_org_access (org : GHOrg) (username : String) (user_id : Nat) :
    List UserLocation :=
  let results : List UserLocation :=
    if user_id ∈ get_cached_member_ids org then [{ org_name := org.login }]
    else []
  match org.repos with
  | .error _ => results
  | .ok repos =>
      results ++ repos.filterMap (fun repo =>
        (check_repo_access repo username user_id).map (fun access_type =>
          { org_name := org.login, repo_name := some repo.name,
            access_type := access_type }))

/-- The GitHub client as the scan uses it: the authentication call
`g.get_user()`, target resolution `g.get_user(username)`, and the
organization listing `auth_user.get_orgs()`. -/
structure Github where
  auth_user : Except Unit GHUser
  get_user : String → Except Unit GHUser
  orgs : Except Unit (List GHOrg)

/-- `find_user_in_orgs(g, username, debug)` (lines 181–249): authentication
failure, target-resolution failure and organization-listing failure each
return the empty result; otherwise the per-organization results are
concatenated (an empty organization list also yields the empty result). -/
def find_user_in_orgs (g : Github) (username : String) : List UserLocation :=
  match g.auth_user with
  | .error _ => []
  | .ok _ =>
      match g.get_user username with
      | .error _ => []
      | .ok user =>
          match g.orgs with
          | .error _ => []
          | .ok orgs =>
              (orgs.map (fun org =>
                check_org_access org username user.id)).flatten

/-! ### Scan lemmas -/

/-- A successful `organization.get_member` lookup returns an organization
member with the requested login. -/
theorem organization_get_member_ok (t : GHTeam) (username : String)
    (u : GHUser) (h : t.organization_get_member username = .ok u) :
    u ∈ t.orgMembers ∧ u.login = username := by
  unfold GHTeam.organization_get_member at h
  cases hf : t.orgMembers.find? (fun v => v.login == username) with
  | some v =>
      rw [hf] at h
      cases h
      exact ⟨List.mem_of_find?_eq_some hf, by simpa using List.find?_some hf⟩
  | none => rw [hf] at h; cases h

/-- When no organization member has the requested login, the
`organization.get_member` lookup raises. -/
theorem organization_get_member_error (t : GHTeam) (username : String)
    (h : ∀ u ∈ t.orgMembers, u.login ≠ username) :
    t.organization_get_member username = .error () := by
  unfold GHTeam.organization_get_member
  rw [List.find?_eq_none.mpr (fun a ha => by simpa using h a ha)]

/-- The team loop unfolds one team at a time through the code's membership
test. -/
theorem check_repo_teams_cons (t : GHTeam) (ts : List GHTeam)
    (username : String) :
    check_repo_teams (t :: ts) username =
      if team_matches t username then
        some ("team member (" ++ t.name ++ ")")
      else check_repo_teams ts username := by
  cases hm : t.organization_get_member username with
  | ok u =>
      by_cases h : t.has_in_members u <;>
        simp [check_repo_teams, team_matches, hm, h]
  | error e => simp [check_repo_teams, team_matches, hm]

/-- A team-loop hit names a listed team and requires the target to be a
member of that team's organization (and of the team). -/
theorem check_repo_teams_some (username : String) :
    ∀ (teams : List GHTeam) (s : String),
      check_repo_teams teams username = some s →
      ∃ t ∈ teams, s = "team member (" ++ t.name ++ ")"
        ∧ ∃ u ∈ t.orgMembers, u.login = username
            ∧ t.has_in_members u = true := by
  intro teams
  induction teams with
  | nil => intro s h; simp [check_repo_teams] at h
  | cons t ts ih =>
      intro s h
      rw [check_repo_teams_cons] at h
      by_cases htm : team_matches t username = true
      · rw [if_pos htm] at h
        unfold team_matches at htm
        cases hm : t.organization_get_member username with
        | ok u =>
            rw [hm] at htm
            obtain ⟨hu, hlogin⟩ := organization_get_member_ok t username u hm
            exact ⟨t, List.mem_cons_self t ts, (Option.some.inj h).symm,
              u, hu, hlogin, htm⟩
        | error e =>
            rw [hm] at htm
            exact Bool.noConfusion htm
      · rw [if_neg htm] at h
        obtain ⟨t', ht', rest⟩ := ih s h
        exact ⟨t', List.mem_cons_of_mem _ ht', rest⟩

/-- A repository check reports either collaborator access or a team label. -/
theorem check_repo_access_some (repo : GHRepo) (username : String)
    (uid : Nat) (s : String)
    (h : check_repo_access repo username uid = some s) :
    s = "repository collaborator"
      ∨ ∃ n, s = "team member (" ++ n ++ ")" := by
  unfold check_repo_access at h
  split at h
  · exact Option.noConfusion h
  · split at h
    · exact Or.inl (Option.some.inj h).symm
    · split at h
      · exact Option.noConfusion h
      · obtain ⟨t, _, hs, _⟩ := check_repo_teams_some username _ s h
        exact Or.inr ⟨t.name, hs⟩

/-- Every entry of `check_org_access` is either the organization-membership
entry or a repository entry labelled by `check_repo_access`. -/
theorem mem_check_org_access (org : GHOrg) (username : String) (uid : Nat)
    (loc : UserLocation) (h : loc ∈ check_org_access org username uid) :
    loc = { org_name := org.login }
      ∨ ∃ repo s, check_repo_access repo username uid = some s
          ∧ loc = { org_name := org.login, repo_name := some repo.name,
                    access_type := s } := by
  simp only [check_org_access] at h
  split at h
  · split at h
    · exact Or.inl (List.mem_singleton.mp h)
    · cases h
  · rcases List.mem_append.mp h with h1 | h2
    · split at h1
      · exact Or.inl (List.mem_singleton.mp h1)
      · cases h1
    · obtain ⟨repo, hrepo, heq⟩ := List.mem_filterMap.mp h2
      obtain ⟨s, hs, hloc⟩ := Option.map_eq_some'.mp heq
      exact Or.inr ⟨repo, s, hs, hloc.symm⟩

/-- With authentication, target resolution and organization listing all
succeeding, the scan is the concatenation of the per-organization results. -/
theorem find_user_in_orgs_eq (g : Github) (username : String)
    (au user : GHUser) (orgs : List GHOrg)
    (hauth : g.auth_user = .ok au) (huser : g.get_user username = .ok user)
    (horgs : g.orgs = .ok orgs) :
    find_user_in_orgs g username
      = (orgs.map (fun org => check_org_access org username user.id)).flatten := by
  simp [find_user_in_orgs, hauth, huser, horgs]

/-- C2.  Per-repository check order: the collaborator list is consulted
first — an id hit yields "repository collaborator" and the result is
independent of the repository's teams (no team is examined); only with no
collaborator match is the team list checked, and the first team whose
membership check succeeds determines the result, labelled with that team's
name.  (Per C10, a team's membership check is the code's
`team.organization.get_member` resolution followed by `has_in_members`.) -/
theorem C2_collaborator_priority :
    (∀ (name username : String) (cs : List GHUser) (uid : Nat)
        (tms tms' : Except Unit (List GHTeam)),
        (∃ c ∈ cs, c.id = uid) →
        check_repo_access ⟨name, .ok cs, tms⟩ username uid
            = some "repository collaborator"
          ∧ check_repo_access ⟨name, .ok cs, tms⟩ username uid
              = check_repo_access ⟨name, .ok cs, tms'⟩ username uid)
    ∧ (∀ (name username : String) (cs : List GHUser) (uid : Nat)
        (teams : List GHTeam),
        (∀ c ∈ cs, c.id ≠ uid) →
        check_repo_access ⟨name, .ok cs, .ok teams⟩ username uid
          = check_repo_teams teams username)
    ∧ (∀ (ts₁ : List GHTeam) (t : GHTeam) (ts₂ : List GHTeam)
        (username : String),
        (∀ t' ∈ ts₁, team_matches t' username = false) →
        team_matches t username = true →
        check_repo_teams (ts₁ ++ t :: ts₂) username
          = some ("team member (" ++ t.name ++ ")")) := by
  refine ⟨?_, ?_, ?_⟩
  · intro name username cs uid tms tms' hhit
    obtain ⟨c, hc, hcid⟩ := hhit
    have hany : (cs.any fun c => c.id == uid) = true :=
      List.any_eq_true.mpr ⟨c, hc, by simp [hcid]⟩
    constructor <;> simp [check_repo_access, hany]
  · intro name username cs uid teams hmiss
    have hany : (cs.any fun c => c.id == uid) = false := by
      rw [List.any_eq_false]
      intro c hc
      simpa using hmiss c hc
    simp [check_repo_access, hany]
  · intro ts₁ t ts₂ username hnone hmatch
    induction ts₁ with
    | nil =>
        rw [List.nil_append, check_repo_teams_cons, if_pos hmatch]
    | cons t' rest ih =>
        rw [List.cons_append, check_repo_teams_cons,
          if_neg (by simp [hnone t' (List.mem_cons_self t' rest)])]
        exact ih fun x hx => hnone x (List.mem_cons_of_mem t' hx)

/-- C2 witness: a collaborator hit wins even though the team fetch would
raise; with no collaborator the team loop decides; the first team whose
membership check succeeds wins over an earlier non-matching team. -/
theorem C2_witness :
    check_repo_access ⟨"infra", .ok [⟨"alice", 7⟩], .error ()⟩ "alice" 7
        = some "repository collaborator"
      ∧ check_repo_access
          ⟨"infra", .ok [],
            .ok [⟨"good", [⟨"alice", 7⟩], [⟨"alice", 7⟩]⟩]⟩ "alice" 7
          = check_repo_teams [⟨"good", [⟨"alice", 7⟩], [⟨"alice", 7⟩]⟩] "alice"
      ∧ check_repo_teams
          [⟨"bad", [], [⟨"alice", 7⟩]⟩, ⟨"good", [⟨"alice", 7⟩], [⟨"alice", 7⟩]⟩]
          "alice" = some "team member (good)" :=
  ⟨(C2_collaborator_priority.1 "infra" "alice" [⟨"alice", 7⟩] 7 (.error ())
      (.error ()) (by decide)).1,
    C2_collaborator_priority.2.1 "infra" "alice" [] 7
      [⟨"good", [⟨"alice", 7⟩], [⟨"alice", 7⟩]⟩] (by decide),
    C2_collaborator_priority.2.2 [⟨"bad", [], [⟨"alice", 7⟩]⟩]
      ⟨"good", [⟨"alice", 7⟩], [⟨"alice", 7⟩]⟩ [] "alice" (by decide)
      (by decide)⟩

/-- C3.  Every location produced by the scan satisfies the label invariant:
a repository-scoped location is labelled "repository collaborator" or
"team member (<name>)"; an organization-scoped one is labelled exactly
"organization member". -/
theorem C3_label_invariant (g : Github) (username : String)
    (loc : UserLocation) (h : loc ∈ find_user_in_orgs g username) :
    (loc.repo_name = none → loc.access_type = "organization member")
    ∧ (∀ r, loc.repo_name = some r →
        loc.access_type = "repository collaborator"
          ∨ ∃ n, loc.access_type = "team member (" ++ n ++ ")") := by
  unfold find_user_in_orgs at h
  split at h
  · cases h
  · split at h
    · cases h
    · split at h
      · cases h
      · obtain ⟨lst, hlst, hmem⟩ := List.mem_flatten.mp h
        obtain ⟨org, _, rfl⟩ := List.mem_map.mp hlst
        rcases mem_check_org_access org username _ loc hmem with
          hl | ⟨repo, s, hs, hl⟩
        · subst hl
          exact ⟨fun _ => rfl, fun r hr => Option.noConfusion hr⟩
        · subst hl
          refine ⟨fun hc => Option.noConfusion hc, fun r _ => ?_⟩
          exact check_repo_access_some repo username _ s hs

/-- C3 witness: a concrete scan finding an organization membership. -/
theorem C3_witness :
    ({ org_name := "acme" } : UserLocation).access_type
      = "organization member" :=
  (C3_label_invariant
      ⟨.ok ⟨"me", 1⟩, fun _ => .ok ⟨"alice", 7⟩,
        .ok [⟨"acme", .ok [⟨"alice", 7⟩], .ok []⟩]⟩
      "alice" { org_name := "acme" } (by decide)).1 rfl

/-- C10.  A team-loop hit is produced only when the target resolves as a
member of that team's organization (and the team then contains the
resolved member); a team whose organization does not contain the target's
login contributes nothing — the raised lookup is swallowed and the loop
moves on. -/
theorem C10_team_check_via_org :
    (∀ (teams : List GHTeam) (username s : String),
        check_repo_teams teams username = some s →
        ∃ t ∈ teams, s = "team member (" ++ t.name ++ ")"
          ∧ ∃ u ∈ t.orgMembers, u.login = username
              ∧ t.has_in_members u = true)
    ∧ (∀ (t : GHTeam) (teams : List GHTeam) (username : String),
        (∀ u ∈ t.orgMembers, u.login ≠ username) →
        check_repo_teams (t :: teams) username
          = check_repo_teams teams username) := by
  constructor
  · intro teams username s h
    exact check_repo_teams_some username teams s h
  · intro t teams username h
    rw [check_repo_teams_cons]
    rw [if_neg ?_]
    unfold team_matches
    rw [organization_get_member_error t username h]
    simp

/-- C10 witness: "alice" is on the team but not in the team's organization,
so the lookup raises and the team check reports no match. -/
theorem C10_witness :
    check_repo_teams [⟨"core", [], [⟨"alice", 7⟩]⟩] "alice" = none :=
  C10_team_check_via_org.2 ⟨"core", [], [⟨"alice", 7⟩]⟩ [] "alice" (by decide)

/-- C4 (amended).  Failures are confined to the failing fetch: a repository
whose data fetch raises — the collaborator fetch, or the team fetch after
a collaborator miss — contributes no location; an organization whose
member-list fetch raises contributes no organization-membership location;
an organization whose repository-list fetch raises keeps exactly the
locations already discovered for it (its membership entry, if any); and
the scan is the concatenation of per-organization results, so no failure
aborts the results of other organizations.  (The unamended claim — that an
organization with a failed fetch contributes no location at all — fails:
see the counterexample.) -/
theorem C4_failures_are_local :
    (∀ (name : String) (tms : Except Unit (List GHTeam))
        (username : String) (uid : Nat),
        check_repo_access ⟨name, .error (), tms⟩ username uid = none)
    ∧ (∀ (name username : String) (cs : List GHUser) (uid : Nat),
        (∀ c ∈ cs, c.id ≠ uid) →
        check_repo_access ⟨name, .ok cs, .error ()⟩ username uid = none)
    ∧ (∀ (login : String) (repos : Except Unit (List GHRepo))
        (username : String) (uid : Nat),
        ∀ loc ∈ check_org_access ⟨login, .error (), repos⟩ username uid,
          loc.repo_name ≠ none)
    ∧ (∀ (login : String) (members : Except Unit (List GHUser))
        (username : String) (uid : Nat),
        check_org_access ⟨login, members, .error ()⟩ username uid
          = if uid ∈ get_cached_member_ids ⟨login, members, .error ()⟩ then
              [{ org_name := login }]
            else [])
    ∧ (∀ (g : Github) (username : String) (au user : GHUser)
        (orgs : List GHOrg),
        g.auth_user = .ok au → g.get_user username = .ok user →
        g.orgs = .ok orgs →
        find_user_in_orgs g username
          = (orgs.map (fun org => check_org_access org username user.id)).flatten) := by
  refine ⟨?_, ?_, ?_, ?_, ?_⟩
  · intro name tms username uid
    rfl
  · intro name username cs uid hmiss
    have hany : (cs.any fun c => c.id == uid) = false := by
      rw [List.any_eq_false]
      intro c hc
      simpa using hmiss c hc
    simp [check_repo_access, hany]
  · intro login repos username uid loc h
    cases repos with
    | error e =>
        have hempty : check_org_access ⟨login, .error (), .error ()⟩
            username uid = [] := by
          simp [check_org_access, get_cached_member_ids]
        rw [hempty] at h
        cases h
    | ok rs =>
        have hsub : check_org_access ⟨login, .error (), .ok rs⟩ username uid
            = rs.filterMap (fun repo =>
                (check_repo_access repo username uid).map (fun access_type =>
                  { org_name := login, repo_name := some repo.name,
                    access_type := access_type })) := by
          simp [check_org_access, get_cached_member_ids]
        rw [hsub] at h
        obtain ⟨r, _, heq⟩ := List.mem_filterMap.mp h
        obtain ⟨s, _, hloc⟩ := Option.map_eq_some'.mp heq
        rw [← hloc]
        simp
  · intro login members username uid
    rfl
  · intro g username au user orgs h1 h2 h3
    exact find_user_in_orgs_eq g username au user orgs h1 h2 h3

/-- C4 witness: a repository with a failing collaborator fetch reports no
access, and so does one whose team fetch fails after a collaborator miss; a
location found under an organization whose member fetch failed is
repository-scoped; with all top-level calls succeeding, the scan result is
the concatenation of the per-organization results. -/
theorem C4_witness :
    check_repo_access ⟨"infra", .error (), .ok []⟩ "alice" 7 = none
      ∧ check_repo_access ⟨"infra", .ok [⟨"bob", 9⟩], .error ()⟩ "alice" 7
          = none
      ∧ ({ org_name := "acme", repo_name := some "infra",
            access_type := "repository collaborator" } : UserLocation).repo_name
          ≠ none
      ∧ find_user_in_orgs
          ⟨.ok ⟨"me", 1⟩, fun _ => .ok ⟨"alice", 7⟩,
            .ok [⟨"acme", .ok [⟨"alice", 7⟩], .error ()⟩]⟩ "alice"
        = ([⟨"acme", .ok [⟨"alice", 7⟩], .error ()⟩].map
            (fun org => check_org_access org "alice" 7)).flatten :=
  ⟨C4_failures_are_local.1 "infra" (.ok []) "alice" 7,
    C4_failures_are_local.2.1 "infra" "alice" [⟨"bob", 9⟩] 7 (by decide),
    C4_failures_are_local.2.2.1 "acme"
      (.ok [⟨"infra", .ok [⟨"alice", 7⟩], .ok []⟩]) "alice" 7
      { org_name := "acme", repo_name := some "infra",
        access_type := "repository collaborator" } (by decide),
    C4_failures_are_local.2.2.2.2
      ⟨.ok ⟨"me", 1⟩, fun _ => .ok ⟨"alice", 7⟩,
        .ok [⟨"acme", .ok [⟨"alice", 7⟩], .error ()⟩]⟩
      "alice" ⟨"me", 1⟩ ⟨"alice", 7⟩
      [⟨"acme", .ok [⟨"alice", 7⟩], .error ()⟩] rfl rfl rfl⟩

/-- C4 counterexample: the repository-list fetch of "acme" fails, yet the
scan still contributes a UserLocation for that organization (the membership
entry found before the failure) — the claim that a failing organization
contributes no UserLocation is false. -/
theorem C4_counterexample :
    check_org_access ⟨"acme", .ok [⟨"alice", 7⟩], .error ()⟩ "alice" 7
      = [{ org_name := "acme", repo_name := none,
           access_type := "organization member" }] := by
  decide

/-- C8.  A target who is both an organization member and a collaborator on
one of that organization's repositories yields two distinct locations in
the scan result — the organization-level entry and the repository-level
entry — with no deduplication. -/
theorem C8_independent_locations (g : Github) (username : String)
    (au user : GHUser) (orgs : List GHOrg) (org : GHOrg)
    (ms : List GHUser) (repos : List GHRepo) (repo : GHRepo)
    (cs : List GHUser)
    (hauth : g.auth_user = .ok au) (huser : g.get_user username = .ok user)
    (horgs : g.orgs = .ok orgs) (horg : org ∈ orgs)
    (hms : org.members = .ok ms) (hmem : ∃ m ∈ ms, m.id = user.id)
    (hrepos : org.repos = .ok repos) (hrepo : repo ∈ repos)
    (hcs : repo.collaborators = .ok cs) (hcol : ∃ c ∈ cs, c.id = user.id) :
    ({ org_name := org.login } : UserLocation) ∈ find_user_in_orgs g username
    ∧ ({ org_name := org.login, repo_name := some repo.name,
          access_type := "repository collaborator" } : UserLocation)
        ∈ find_user_in_orgs g username
    ∧ ({ org_name := org.login } : UserLocation)
        ≠ { org_name := org.login, repo_name := some repo.name,
            access_type := "repository collaborator" } := by
  rw [find_user_in_orgs_eq g username au user orgs hauth huser horgs]
  have hids : user.id ∈ get_cached_member_ids org := by
    obtain ⟨m, hm, hid⟩ := hmem
    simp [get_cached_member_ids, hms]
    exact ⟨m, hm, hid⟩
  have hrc : check_repo_access repo username user.id
      = some "repository collaborator" := by
    obtain ⟨c, hc, hcid⟩ := hcol
    have hany : (cs.any fun c => c.id == user.id) = true :=
      List.any_eq_true.mpr ⟨c, hc, by simp [hcid]⟩
    simp [check_repo_access, hcs, hany]
  have horgloc : ({ org_name := org.login } : UserLocation)
      ∈ check_org_access org username user.id := by
    simp only [check_org_access, hrepos, if_pos hids]
    exact List.mem_append.mpr (Or.inl (List.mem_singleton.mpr rfl))
  have hreploc : ({ org_name := org.login, repo_name := some repo.name,
                    access_type := "repository collaborator" } : UserLocation)
      ∈ check_org_access org username user.id := by
    simp only [check_org_access, hrepos]
    refine List.mem_append.mpr (Or.inr ?_)
    refine List.mem_filterMap.mpr ⟨repo, hrepo, ?_⟩
    rw [hrc]
    rfl
  have hin : ∀ loc : UserLocation,
      loc ∈ check_org_access org username user.id →
      loc ∈ (orgs.map (fun o => check_org_access o username user.id)).flatten :=
    fun loc hloc => List.mem_flatten.mpr
      ⟨check_org_access org username user.id,
        List.mem_map.mpr ⟨org, horg, rfl⟩, hloc⟩
  exact ⟨hin _ horgloc, hin _ hreploc, by simp⟩

/-- C8 witness: the spec's scenario — alice is a member of "acme" and a
collaborator on its repository "infra"; both locations are in the result
and they differ. -/
theorem C8_witness :
    ({ org_name := "acme" } : UserLocation)
        ∈ find_user_in_orgs
            ⟨.ok ⟨"me", 1⟩, fun _ => .ok ⟨"alice", 7⟩,
              .ok [⟨"acme", .ok [⟨"alice", 7⟩],
                .ok [⟨"infra", .ok [⟨"alice", 7⟩], .ok []⟩]⟩]⟩ "alice"
      ∧ ({ org_name := "acme", repo_name := some "infra",
            access_type := "repository collaborator" } : UserLocation)
          ∈ find_user_in_orgs
              ⟨.ok ⟨"me", 1⟩, fun _ => .ok ⟨"alice", 7⟩,
                .ok [⟨"acme", .ok [⟨"alice", 7⟩],
                  .ok [⟨"infra", .ok [⟨"alice", 7⟩], .ok []⟩]⟩]⟩ "alice"
      ∧ ({ org_name := "acme" } : UserLocation)
          ≠ { org_name := "acme", repo_name := some "infra",
              access_type := "repository collaborator" } :=
  C8_independent_locations
    ⟨.ok ⟨"me", 1⟩, fun _ => .ok ⟨"alice", 7⟩,
      .ok [⟨"acme", .ok [⟨"alice", 7⟩],
        .ok [⟨"infra", .ok [⟨"alice", 7⟩], .ok []⟩]⟩]⟩
    "alice" ⟨"me", 1⟩ ⟨"alice", 7⟩
    [⟨"acme", .ok [⟨"alice", 7⟩], .ok [⟨"infra", .ok [⟨"alice", 7⟩], .ok []⟩]⟩]
    ⟨"acme", .ok [⟨"alice", 7⟩], .ok [⟨"infra", .ok [⟨"alice", 7⟩], .ok []⟩]⟩
    [⟨"alice", 7⟩] [⟨"infra", .ok [⟨"alice", 7⟩], .ok []⟩]
    ⟨"infra", .ok [⟨"alice", 7⟩], .ok []⟩ [⟨"alice", 7⟩]
    rfl rfl rfl (by decide) rfl (by decide) rfl (by decide) rfl (by decide)

/-! ### The access-revoker model

`remove_user_from_org` performs removal side effects; the model returns the
Python function's boolean result together with the trace of removal
operations it invokes.  The removal calls themselves are modelled as
succeeding (their invocation is what the claims are about); the boolean is
`false` when a repository or team-list fetch raises. -/

/-- A removal operation invoked by the revoker. -/
inductive RemovalOp where
  | removeTeamMembership (team : String) (user : String)
  | removeFromCollaborators (repo : String) (user : String)
  | removeFromMembers (org : String) (user : String)
deriving DecidableEq

/-- A repository as the revoker sees it: `repo.get_teams()` can raise. -/
structure RevRepo where
  name : String
  teams : Except Unit (List GHTeam)
deriving DecidableEq

/-- The organization object used by the revoker: `org.get_member(username)`
resolves against `members`; `org.get_repo(name)` can raise. -/
structure RevOrg where
  login : String
  members : List GHUser
  repo_by_name : String → Except Unit RevRepo

/-- `org.get_member(username)`: the member with that login, or an exception
when the login is not an organization member. -/
def RevOrg.get_member (org : RevOrg) (username : String) :
    Except Unit GHUser :=
  match org.members.find? (fun u => u.login == username) with
  | some u => .ok u
  | none => .error ()

/-- Python substring containment `needle in hay` over character lists. -/
def listContainsSub (needle : List Char) : List Char → Bool
  | [] => needle.isEmpty
  | c :: rest => needle.isPrefixOf (c :: rest) || listContainsSub needle rest

/-- Python `needle in hay` for strings. -/
def strIn (needle hay : String) : Bool :=
  listContainsSub needle.data hay.data

/-- The `for team in repo.get_teams()` loop of `remove_user_from_org`
(git_rm_user.py lines 258–263): for each team where `org.get_member`
resolves and the team contains the member, `team.remove_membership` is
invoked; all per-team failures are swallowed by the inner bare `except`. -/
def remove_team_memberships (org : RevOrg) (teams : List GHTeam)
    (username : String) : List RemovalOp :=
  teams.filterMap (fun team =>
    match org.get_member username with
    | .ok u =>
        if team.has_in_members u then
          some (.removeTeamMembership team.name username)
        else none
    | .error _ => none)

/-- `remove_user_from_org(org, username, location)` (lines 251–273).
`if location.repo_name:` is Python truthiness: both `None` and the empty
string select the organization branch.  `"team member" in
location.access_type` is substring containment.  The result is the returned
boolean paired with the trace of removal operations invoked. -/
def remove_user_from_org (org : RevOrg) (username : String)
    (location : UserLocation) : Bool × List RemovalOp :=
  if (location.repo_name.getD "") ≠ "" then
    match org.repo_by_name (location.repo_name.getD "") with
    | .error _ => (false, [])
    | .ok repo =>
        if strIn "team member" location.access_type then
          match repo.teams with
          | .error _ => (false, [])
          | .ok teams => (true, remove_team_memberships org teams username)
        else
          (true, [.removeFromCollaborators repo.name username])
  else
    (true, [.removeFromMembers org.login username])

/-! ### The `search` command model -/

/-- The token-name resolution at the top of `search` (lines 311–317):
Python `if not token_name:` treats a missing and an empty `--token-name`
alike and falls back to the stored default, itself read as unset when
missing or empty. -/
def resolve_token_name (kr : Keyring) (token_name : Option String) : String :=
  let tn := token_name.getD ""
  if tn = "" then (get_default_token_name kr).getD "" else tn

/-- `search(username, token_name, delete, deleteforcefull, debug)`
(lines 309–345), for invocations without the removal flags: the exit code
paired with `some` scan result when the GitHub client was constructed and
the scan ran, `none` when `sys.exit(1)` fired before constructing the
client.  Python `if not token:` also treats an empty stored secret as
missing.  Falling off the end of the command gives exit code 0; the
`--delete`/`--deleteforcefull` branch is not modelled. -/
def search (kr : Keyring) (token_name : Option String) (g : Github)
    (username : String) : Nat × Option (List UserLocation) :=
  let tn := resolve_token_name kr token_name
  if tn = "" then (1, none)
  else
    match get_token kr tn with
    | none => (1, none)
    | some token =>
        if token = "" then (1, none)
        else (0, some (find_user_in_orgs g username))

/-- Everything the team-removal loop invokes is a team-membership removal
naming one of the repository's teams. -/
theorem mem_remove_team_memberships (org : RevOrg) (teams : List GHTeam)
    (username : String) (op : RemovalOp)
    (h : op ∈ remove_team_memberships org teams username) :
    ∃ t ∈ teams, op = .removeTeamMembership t.name username := by
  obtain ⟨t, ht, hsome⟩ := List.mem_filterMap.mp h
  refine ⟨t, ht, ?_⟩
  split at hsome
  · split at hsome
    · exact (Option.some.inj hsome).symm
    · exact Option.noConfusion hsome
  · exact Option.noConfusion hsome

/-- C1.  Revocation dispatch: for a location with a repository name whose
label contains "team member", the collaborator-removal operation is never
invoked; for a location with a repository name and any other label, the
team-removal operation is never invoked; for a location with no repository
name, exactly the organization-member removal is invoked. -/
theorem C1_revoke_dispatch :
    (∀ (org : RevOrg) (username : String) (loc : UserLocation) (r : String),
        loc.repo_name = some r →
        strIn "team member" loc.access_type = true →
        ∀ repo user, RemovalOp.removeFromCollaborators repo user
          ∉ (remove_user_from_org org username loc).2)
    ∧ (∀ (org : RevOrg) (username : String) (loc : UserLocation) (r : String),
        loc.repo_name = some r →
        strIn "team member" loc.access_type = false →
        ∀ team user, RemovalOp.removeTeamMembership team user
          ∉ (remove_user_from_org org username loc).2)
    ∧ (∀ (org : RevOrg) (username : String) (loc : UserLocation),
        loc.repo_name = none →
        (remove_user_from_org org username loc).2
          = [.removeFromMembers org.login username]) := by
  refine ⟨?_, ?_, ?_⟩
  · intro org username loc r hr hteam repo user hmem
    simp only [remove_user_from_org, hr, Option.getD_some] at hmem
    split at hmem
    · split at hmem
      · simp at hmem
      · split at hmem
        · simp at hmem
        · obtain ⟨t, _, heq⟩ :=
            mem_remove_team_memberships org _ username _ hmem
          exact RemovalOp.noConfusion heq
    · simp at hmem
  · intro org username loc r hr hteam team user hmem
    simp only [remove_user_from_org, hr, Option.getD_some] at hmem
    split at hmem
    · split at hmem
      · simp at hmem
      · simp [hteam] at hmem
    · simp at hmem
  · intro org username loc hnone
    simp [remove_user_from_org, hnone]

/-- C1 witness: against a concrete organization, revoking a "team member"
location leaves no collaborator removal in the trace; revoking a
"repository collaborator" location leaves no team removal; revoking an
organization-level location invokes exactly the member removal. -/
theorem C1_witness :
    RemovalOp.removeFromCollaborators "infra" "alice"
        ∉ (remove_user_from_org
            ⟨"acme", [⟨"alice", 7⟩], fun _ =>
              .ok ⟨"infra", .ok [⟨"core", [⟨"alice", 7⟩], [⟨"alice", 7⟩]⟩]⟩⟩
            "alice"
            { org_name := "acme", repo_name := some "infra",
              access_type := "team member (core)" }).2
      ∧ RemovalOp.removeTeamMembership "core" "alice"
          ∉ (remove_user_from_org
              ⟨"acme", [⟨"alice", 7⟩], fun _ =>
                .ok ⟨"infra", .ok [⟨"core", [⟨"alice", 7⟩], [⟨"alice", 7⟩]⟩]⟩⟩
              "alice"
              { org_name := "acme", repo_name := some "infra",
                access_type := "repository collaborator" }).2
      ∧ (remove_user_from_org
            ⟨"acme", [⟨"alice", 7⟩], fun _ =>
              .ok ⟨"infra", .ok [⟨"core", [⟨"alice", 7⟩], [⟨"alice", 7⟩]⟩]⟩⟩
            "alice" { org_name := "acme" }).2
          = [.removeFromMembers "acme" "alice"] :=
  ⟨C1_revoke_dispatch.1
      ⟨"acme", [⟨"alice", 7⟩], fun _ =>
        .ok ⟨"infra", .ok [⟨"core", [⟨"alice", 7⟩], [⟨"alice", 7⟩]⟩]⟩⟩
      "alice"
      { org_name := "acme", repo_name := some "infra",
        access_type := "team member (core)" } "infra" rfl (by decide)
      "infra" "alice",
    C1_revoke_dispatch.2.1
      ⟨"acme", [⟨"alice", 7⟩], fun _ =>
        .ok ⟨"infra", .ok [⟨"core", [⟨"alice", 7⟩], [⟨"alice", 7⟩]⟩]⟩⟩
      "alice"
      { org_name := "acme", repo_name := some "infra",
        access_type := "repository collaborator" } "infra" rfl (by decide)
      "core" "alice",
    C1_revoke_dispatch.2.2
      ⟨"acme", [⟨"alice", 7⟩], fun _ =>
        .ok ⟨"infra", .ok [⟨"core", [⟨"alice", 7⟩], [⟨"alice", 7⟩]⟩]⟩⟩
      "alice" { org_name := "acme" } rfl⟩

/-- C5 (amended, for invocations without the removal flags).  The exit
status is 1 exactly when the resolved token name is empty (no explicit name
and no usable default) or its stored secret is missing or empty, and then
the GitHub client is never constructed; in every other case the exit status
is 0 and the scan runs (an empty scan result still exits 0).  (The
unamended claim — nonzero only when no stored secret exists — fails for an
empty stored secret: see the counterexample.) -/
theorem C5_exit_behavior (kr : Keyring) (tno : Option String) (g : Github)
    (username : String) :
    ((search kr tno g username).1 = 1 ↔
      (resolve_token_name kr tno = ""
        ∨ get_token kr (resolve_token_name kr tno) = none
        ∨ get_token kr (resolve_token_name kr tno) = some ""))
    ∧ ((search kr tno g username).1 = 1 →
        (search kr tno g username).2 = none)
    ∧ ((search kr tno g username).1 ≠ 1 →
        search kr tno g username = (0, some (find_user_in_orgs g username))) := by
  by_cases h1 : resolve_token_name kr tno = ""
  · simp [search, h1]
  · cases h2 : get_token kr (resolve_token_name kr tno) with
    | none => simp [search, h1, h2]
    | some token =>
        by_cases h3 : token = ""
        · simp [search, h1, h2, h3]
        · simp [search, h1, h2, h3]

/-- C5 witness: with no default token and `--token-name` omitted, the
command exits 1 before constructing the client; with a usable stored token
it exits 0 and the scan result is returned. -/
theorem C5_witness :
    (search Keyring.empty none
        ⟨.error (), fun _ => .error (), .error ()⟩ "alice").1 = 1
      ∧ (search Keyring.empty none
          ⟨.error (), fun _ => .error (), .error ()⟩ "alice").2 = none
      ∧ search (Keyring.empty.set "work" "tok") (some "work")
          ⟨.error (), fun _ => .error (), .error ()⟩ "alice"
        = (0, some (find_user_in_orgs
            ⟨.error (), fun _ => .error (), .error ()⟩ "alice")) :=
  ⟨(C5_exit_behavior Keyring.empty none
        ⟨.error (), fun _ => .error (), .error ()⟩ "alice").1.mpr (Or.inl rfl),
    (C5_exit_behavior Keyring.empty none
        ⟨.error (), fun _ => .error (), .error ()⟩ "alice").2.1
      ((C5_exit_behavior Keyring.empty none
          ⟨.error (), fun _ => .error (), .error ()⟩ "alice").1.mpr
        (Or.inl rfl)),
    (C5_exit_behavior (Keyring.empty.set "work" "tok") (some "work")
        ⟨.error (), fun _ => .error (), .error ()⟩ "alice").2.2 (by decide)⟩

/-- C5 counterexample: a secret IS stored for the resolved name — the empty
string — yet the exit status is nonzero, because Python `if not token:`
conflates an empty secret with a missing one. -/
theorem C5_counterexample :
    get_token (Keyring.empty.set "work" "") "work" = some ""
      ∧ (search (Keyring.empty.set "work" "") (some "work")
          ⟨.error (), fun _ => .error (), .error ()⟩ "alice").1 = 1 := by
  exact ⟨by decide, by decide⟩

end GitRmUser
